import Mathlib

/-!
Verification of the yacuri language toolchain (`src/lang`) against its
specification.  The Rust sources are shallowly embedded: pure functions become
Lean functions, interior mutability (`RefCell` caches, compiler state) becomes
explicit state passing, and panics (`unwrap`, `panic!`-style aborts) become
`Option`/`Except` failures.  Strings that only serve as identifiers are
modelled by `String`; the byte-level small-string store `SmolStr` gets its own
byte-accurate model.
-/

namespace Yacuri

/-! ## Small-string store (`src/lang/src/smol_str.rs`)

Strings are modelled as their byte sequences (`List Nat`), since the claim is
about byte-for-byte equality across the three internal representations. -/

/-- Byte sequence of a string, as handed to `SmolStr::new`. -/
abbrev ByteStr := List Nat

def INLINE_CAP : Nat := 22
def N_NEWLINES : Nat := 32
def N_SPACES : Nat := 128

/-- The three internal representations of `SmolStr` (`enum Repr`).  The inline
variant stores the meaningful prefix `buf[..len]` of the 22-byte buffer. -/
inductive SRepr where
  | heap (data : ByteStr)
  | inline (buf : ByteStr)
  | substring (newlines : Nat) (spaces : Nat)
deriving DecidableEq

/-- Embedding of `Repr::new`: inline up to 22 bytes; strings of up to 32
newlines followed by spaces (at most 160 bytes) become `Substring`;
everything else is heap-allocated.  Byte 10 is `\n`, byte 32 is a space. -/
def SRepr.new (text : ByteStr) : SRepr :=
  let len := text.length
  if len ≤ INLINE_CAP then
    .inline text
  else if len ≤ N_NEWLINES + N_SPACES then
    let possible_newline_count := min len N_NEWLINES
    let newlines := ((text.take possible_newline_count).takeWhile (fun b => b = 10)).length
    let possible_space_count := len - newlines
    if possible_space_count ≤ N_SPACES ∧ (text.drop newlines).all (fun b => b = 32) then
      .substring newlines possible_space_count
    else
      .heap text
  else
    .heap text

/-- Embedding of `Repr::as_str`: the substring variant reads
`WS[N_NEWLINES - newlines..N_NEWLINES + spaces]`, i.e. `newlines` newline
bytes followed by `spaces` space bytes. -/
def SRepr.as_str : SRepr → ByteStr
  | .heap data => data
  | .inline buf => buf
  | .substring newlines spaces => List.replicate newlines 10 ++ List.replicate spaces 32

/-- `SmolStr` wraps a representation. -/
structure SmolStr where
  repr : SRepr
deriving DecidableEq

def SmolStr.new (text : ByteStr) : SmolStr := ⟨SRepr.new text⟩

def SmolStr.as_str (s : SmolStr) : ByteStr := s.repr.as_str

/-- `PartialEq for SmolStr`: equality is `self.as_str() == other.as_str()`. -/
def SmolStr.beq (a b : SmolStr) : Bool := a.as_str = b.as_str

/-- `Hash for SmolStr` feeds `self.as_str()` to the hasher: with `h` standing
for the hasher, the hash of a `SmolStr` is a function of its content only. -/
def SmolStr.hashWith (h : ByteStr → Nat) (s : SmolStr) : Nat := h s.as_str

end Yacuri

namespace Yacuri

/-! ## Lexer (`src/lang/src/lexer.rs`)

The logos-derived scanner is embedded as an explicit longest-match lexer over
`List Char` (the sources are ASCII, so char offsets equal the byte offsets of
logos spans).  `Whitespace`, `Comment` and `Newline` carry `logos::skip`.
`lexer.rs` in the snapshot predates `parser/mod.rs`, which dispatches on the
`while`, `extern` and `static` keywords documented in the spec; the three
corresponding kinds are included here (`While`, and `ExternKw`/`StaticKw`) so
the parser embedding is well formed. -/

inductive TKind where
  | LeftParen | RightParen | LeftBracket | RightBracket | LeftBrace | RightBrace
  | Tilde | Comma | Dot | Minus | Plus | Semicolon | Colon | ColonColon
  | Slash | Star | Arrow | QuestionMark
  | Bang | BangEqual | Equal | EqualEqual
  | Greater | GreaterEqual | Less | LessEqual
  | Identifier | String | Int | Float
  | And | Break | Class | Else | Enum | False | For | Fun | If | Import
  | In | Interface | Is | Null | Or | Return | True | Var | Val | When
  | While | ExternKw | StaticKw
  | Error
  | Comment | Whitespace | Newline
deriving DecidableEq

structure Token where
  kind : TKind
  lex : String
  start : Nat
deriving DecidableEq

/-- `TKind::infix_binding_power`. -/
def TKind.infix_binding_power : TKind → Option (Nat × Nat)
  | .Equal => some (6, 5)
  | .Or => some (10, 9)
  | .And => some (12, 11)
  | .BangEqual | .EqualEqual => some (14, 13)
  | .Less | .LessEqual | .Greater | .GreaterEqual => some (16, 15)
  | .Plus | .Minus => some (16, 15)
  | .Star | .Slash => some (18, 17)
  | .Is => some (20, 19)
  | _ => none

/-- `TKind::prefix_binding_power`. -/
def TKind.prefix_binding_power : TKind → Option Nat
  | .Minus | .Bang => some 30
  | _ => none

/-- `TKind::is_binary_logic`. -/
def TKind.is_binary_logic : TKind → Bool
  | .EqualEqual | .BangEqual | .Less | .LessEqual | .Greater | .GreaterEqual
  | .And | .Or => true
  | _ => false

/-- The `#[token(...)]` literals, including keywords.  The `Newline` entry is
the literal five-character text `[\n]+` (`#[token(r"[\n]+")]` takes its
argument verbatim; an actual newline byte matches no pattern and lexes as
`Error`). -/
def literal_tokens : List (List Char × TKind) := [
  ("(".toList, .LeftParen), (")".toList, .RightParen),
  ("[".toList, .LeftBracket), ("]".toList, .RightBracket),
  ("\x7b".toList, .LeftBrace), ("\x7d".toList, .RightBrace),
  ("~".toList, .Tilde), (",".toList, .Comma), (".".toList, .Dot),
  ("-".toList, .Minus), ("+".toList, .Plus), (";".toList, .Semicolon),
  (":".toList, .Colon), ("::".toList, .ColonColon),
  ("/".toList, .Slash), ("*".toList, .Star), ("->".toList, .Arrow),
  ("?".toList, .QuestionMark),
  ("!".toList, .Bang), ("!=".toList, .BangEqual),
  ("=".toList, .Equal), ("==".toList, .EqualEqual),
  (">".toList, .Greater), (">=".toList, .GreaterEqual),
  ("<".toList, .Less), ("<=".toList, .LessEqual),
  ("and".toList, .And), ("break".toList, .Break), ("class".toList, .Class),
  ("else".toList, .Else), ("enum".toList, .Enum), ("false".toList, .False),
  ("for".toList, .For), ("fun".toList, .Fun), ("if".toList, .If),
  ("import".toList, .Import), ("in".toList, .In),
  ("interface".toList, .Interface), ("is".toList, .Is),
  ("null".toList, .Null), ("or".toList, .Or), ("return".toList, .Return),
  ("true".toList, .True), ("var".toList, .Var), ("val".toList, .Val),
  ("when".toList, .When),
  ("while".toList, .While),
  ("extern".toList, .ExternKw), ("static".toList, .StaticKw),
  ("[\\n]+".toList, .Newline)]

/-- Regex `[a-zA-Z_]`. -/
def is_ident_start (c : Char) : Bool := c.isAlpha || c = '_'

/-- Regex `[a-zA-Z0-9_]`. -/
def is_ident_cont (c : Char) : Bool := c.isAlphanum || c = '_'

/-- Longest match of `[a-zA-Z_][a-zA-Z0-9_]*` at the head (0 = no match). -/
def match_ident : List Char → Nat
  | [] => 0
  | c :: rest =>
    if is_ident_start c then 1 + (rest.takeWhile is_ident_cont).length else 0

/-- Longest match of `"[^"]*"` at the head. -/
def match_string : List Char → Nat
  | [] => 0
  | c :: rest =>
    if c = '"' then
      let inner := rest.takeWhile (fun d => d ≠ '"')
      match rest.drop inner.length with
      | '"' :: _ => inner.length + 2
      | _ => 0
    else 0

/-- Optional integer suffix `((i|u)(size|8|16|32|64))?` after the digits. -/
def match_int_suffix : List Char → Nat
  | [] => 0
  | c :: rest =>
    if c = 'i' || c = 'u' then
      if List.isPrefixOf "size".toList rest then 5
      else if List.isPrefixOf "16".toList rest || List.isPrefixOf "32".toList rest
          || List.isPrefixOf "64".toList rest then 3
      else if List.isPrefixOf "8".toList rest then 2
      else 0
    else 0

/-- Longest match of `[0-9]+((i|u)(size|8|16|32|64))?`. -/
def match_int (s : List Char) : Nat :=
  let digits := (s.takeWhile Char.isDigit).length
  if digits = 0 then 0 else digits + match_int_suffix (s.drop digits)

/-- Longest match of `[0-9]+\.[0-9]+((f)(32|64))?`. -/
def match_float (s : List Char) : Nat :=
  let d1 := (s.takeWhile Char.isDigit).length
  if d1 = 0 then 0 else
    match s.drop d1 with
    | '.' :: rest2 =>
      let d2 := (rest2.takeWhile Char.isDigit).length
      if d2 = 0 then 0 else
        d1 + 1 + d2 +
          (match rest2.drop d2 with
           | 'f' :: r3 =>
             if List.isPrefixOf "32".toList r3 || List.isPrefixOf "64".toList r3
             then 3 else 0
           | _ => 0)
    | _ => 0

/-- Longest match of the line comment `//[^\n]*`. -/
def match_line_comment : List Char → Nat
  | '/' :: '/' :: rest => 2 + (rest.takeWhile (fun c => c ≠ '\n')).length
  | _ => 0

/-- Index of the first adjacent `*` `/` pair. -/
def find_star_slash : List Char → Option Nat
  | '*' :: '/' :: _ => some 0
  | _ :: rest => (find_star_slash rest).map (· + 1)
  | [] => none

/-- Longest match of the closed block comment `/\*([^*]|\**[^*/])*\*+/`:
everything up to and including the first `*/`. -/
def match_block_closed : List Char → Nat
  | '/' :: '*' :: rest =>
    match find_star_slash rest with
    | some i => 4 + i
    | none => 0
  | _ => 0

/-- Longest match of the unterminated-comment pattern on the `Error` variant,
`/\*([^*]|\*+[^*/])*\*?`: the body cannot cross a `*/`, and at most one star
of a trailing star run is taken by the final `\*?`. -/
def match_block_unterminated : List Char → Nat
  | '/' :: '*' :: rest =>
    match find_star_slash rest with
    | some i =>
      let back := ((rest.take i).reverse.takeWhile (fun c => c = '*')).length
      2 + (i - back) + 1
    | none =>
      let stars := (rest.reverse.takeWhile (fun c => c = '*')).length
      2 + (rest.length - stars) + min stars 1
  | _ => 0

/-- Longest match of `[ \t\f]+`. -/
def match_whitespace (s : List Char) : Nat :=
  (s.takeWhile (fun c => c = ' ' || c = '\t' || c = '\x0c')).length

/-- All candidate matches at the head of `s`: literal tokens first, then the
regex classes.  Only positive-length matches are candidates. -/
def token_candidates (s : List Char) : List (TKind × Nat) :=
  (literal_tokens.filterMap fun p =>
    if List.isPrefixOf p.1 s then some (p.2, p.1.length) else none) ++
  ([(TKind.Identifier, match_ident s), (TKind.String, match_string s),
    (TKind.Int, match_int s), (TKind.Float, match_float s),
    (TKind.Comment, match_line_comment s), (TKind.Comment, match_block_closed s),
    (TKind.Error, match_block_unterminated s),
    (TKind.Whitespace, match_whitespace s)].filter fun p => 0 < p.2)

/-- Longest-match selection: the longest candidate wins; on equal length the
earlier candidate wins, which makes literal tokens (keywords) beat the
`Identifier` regex exactly as logos' priorities do. -/
def best_match (s : List Char) : Option (TKind × Nat) :=
  (token_candidates s).foldl
    (fun best c =>
      match best with
      | none => some c
      | some b => if b.2 < c.2 then some c else best)
    none

def skip_kind (k : TKind) : Bool :=
  k = .Comment || k = .Whitespace || k = .Newline

/-- The token stream of the logos lexer: repeated longest matches, skipping
`Whitespace`/`Comment`/`Newline`, fabricating an `Error` token for a byte no
pattern matches.  `pos` is the running byte offset, recorded as each token's
`start`.  Every step consumes at least one character, so the structural fuel
(one unit per character, supplied by `lex`) never runs out. -/
def lex_all (fuel : Nat) : List Char → Nat → List Token
  | [], _ => []
  | c :: rest, pos =>
    match fuel with
    | 0 => []
    | fuel + 1 =>
      match best_match (c :: rest) with
      | none =>
        { kind := .Error, lex := String.mk [c], start := pos } :: lex_all fuel rest (pos + 1)
      | some (k, len) =>
        let rest2 := rest.drop (len - 1)
        if skip_kind k then
          lex_all fuel rest2 (pos + len)
        else
          { kind := k, lex := String.mk (c :: rest.take (len - 1)), start := pos } ::
            lex_all fuel rest2 (pos + len)

/-- Token stream of a source string. -/
def lex (src : String) : List Token := lex_all src.toList.length src.toList 0

end Yacuri

namespace Yacuri

/-! ## Errors (`src/lang/src/error.rs`)

`error.rs` in the snapshot lacks the `E102` (expected top-level declaration)
kind that `parser/mod.rs` imports and the spec lists; it is included here.
The `String` payloads of E500/E501/E504/E506/E508 are the `to_string()`
renderings of types, carried opaquely. -/

inductive ErrorKind where
  | e100 (expected : TKind) (found : TKind)
  | e101
  | e102
  | e200 (name : String)
  | e201 (name : String)
  | e500 (left : String) (right : String)
  | e501 (op : String) (ty : String)
  | e502
  | e503 (name : String)
  | e504 (ty : String)
  | e505
  | e506 (ty : String)
  | e507 (expected : Nat) (found : Nat)
  | e508 (expected : String) (found : String) (pos : Nat)
deriving DecidableEq

structure Error where
  kind : ErrorKind
  start : Nat
deriving DecidableEq

/-- `Error::new(start, kind)`. -/
def Error.new (start : Nat) (kind : ErrorKind) : Error := ⟨kind, start⟩

abbrev Errors := List Error

/-! ## AST (`src/lang/src/parser/ast.rs` as used by `src/lang/src/parser/mod.rs`)

The Rust AST is a struct `Expr { start, ty: Box<EExpr> }`; here the `start`
offset is flattened into each `EExpr` constructor (`AExpr`), which is
isomorphic and avoids a mutual inductive.  `f64` literal payloads are carried
as their source text: no claim observes float values. -/

inductive ALiteral where
  | bool (b : Bool)
  | int (i : Int)
  | float (text : String)
  | string (s : String)
deriving DecidableEq

inductive AExpr where
  | literal (start : Nat) (lit : ALiteral)
  | identifier (start : Nat) (tok : Token)
  | variable (start : Nat) (final_ : Bool) (name : Token) (value : AExpr)
  | block (start : Nat) (exprs : List AExpr)
  | if_ (start : Nat) (cond : AExpr) (then_ : AExpr) (els : Option AExpr)
  | while_ (start : Nat) (cond : AExpr) (body : AExpr)
  | binary (start : Nat) (left : AExpr) (op : Token) (right : AExpr)
  | unary (start : Nat) (op : Token) (right : AExpr)
  | call (start : Nat) (callee : AExpr) (args : List AExpr)

/-- The `start` field of the Rust `ast::Expr` wrapper. -/
def AExpr.start : AExpr → Nat
  | .literal s _ | .identifier s _ | .variable s _ _ _ | .block s _
  | .if_ s _ _ _ | .while_ s _ _ | .binary s _ _ _ | .unary s _ _
  | .call s _ _ => s

structure AType where
  name : Token
deriving DecidableEq

structure AParameter where
  name : String
  ty : AType
deriving DecidableEq

structure AMember where
  name : Token
  ty : AType
  mutable : Bool
deriving DecidableEq

structure AFunction where
  name : Token
  params : List AParameter
  ret_type : Option AType
  body : Option AExpr

structure AClass where
  name : Token
  members : List AMember
  methods : List AFunction
  functions : List AFunction

structure AstModule where
  functions : List AFunction
  classes : List AClass
  path : List String

/-! ## Parser (`src/lang/src/parser/mod.rs`)

The parser owns the lexer and a one-token lookahead `current`.  Here the yet
unread lexer output is the list `rest`; `advance` past it fabricates the
synthetic end-of-input `Error` token exactly as the source does.  Parsing
returns `Option`: `none` models a Rust panic (the `unwrap` of an overflowing
integer literal); the recursive productions additionally thread a fuel
counter whose exhaustion is reported separately in the driver. -/

structure Parser where
  rest : List Token
  current : Token
  errors : Errors

/-- The `lexer.next().unwrap()` of `Parser::new`: panics (`none`) when the
token stream is empty. -/
def Parser.new (src : String) : Option Parser :=
  match lex src with
  | [] => none
  | t :: ts => some { rest := ts, current := t, errors := [] }

/-- `Parser::advance`: returns the old `current`; the new `current` is the
next lexer token, or the fabricated end-of-input `Error` token whose `start`
is the old `current.start + 1`. -/
def Parser.advance (p : Parser) : Token × Parser :=
  match p.rest with
  | t :: ts => (p.current, { p with current := t, rest := ts })
  | [] =>
    (p.current,
     { p with
        current := { kind := .Error, lex := "\x00", start := p.current.start + 1 },
        rest := [] })

def Parser.check (p : Parser) (kind : TKind) : Bool := p.current.kind = kind

def Parser.check_ (p : Parser) (kinds : List TKind) : Bool :=
  kinds.any fun k => p.check k

def Parser.matches (p : Parser) (kind : TKind) : Bool × Parser :=
  if p.check kind then (true, (p.advance).2) else (false, p)

def Parser.consume (p : Parser) (kind : TKind) : Except Error Token × Parser :=
  if p.check kind then
    let (t, p') := p.advance
    (.ok t, p')
  else
    (.error (Error.new p.current.start (.e100 kind p.current.kind)), p)

def Parser.is_at_end (p : Parser) : Bool := p.current.kind = TKind.Error

/-- `Parser::synchronize`: skip tokens (`advance` returns the old `current`)
until the consumed token is a `fun` or the end of input is reached. -/
def Parser.synchronize (p : Parser) : Parser :=
  if p.is_at_end then p
  else
    match h : p.rest with
    | t :: ts =>
      if p.current.kind = TKind.Fun then { p with current := t, rest := ts }
      else Parser.synchronize { p with current := t, rest := ts }
    | [] =>
      if p.current.kind = TKind.Fun then (p.advance).2
      else Parser.synchronize (p.advance).2
termination_by p.rest.length + (if p.is_at_end then 0 else 1)
decreasing_by
  · rename_i hend hfun
    simp only [Parser.is_at_end] at hend
    simp only [Parser.is_at_end, h, List.length_cons]
    rw [if_neg hend]
    split <;> omega
  · rename_i hend hfun
    simp only [Parser.is_at_end] at hend
    simp [Parser.advance, Parser.is_at_end, h, hend]

end Yacuri

namespace Yacuri

/-- Abort modes of the embedded interpreters: a Rust panic, or exhaustion of
the fuel that makes the recursive descent total in Lean. -/
inductive PFail where
  | panicked
  | fuel_out
deriving DecidableEq

/-- Result of a parser production: abort, or the Rust `Res<T>` paired with
the mutated parser. -/
abbrev PRes (α : Type) := Except PFail ((Except Error α) × Parser)

/-- The `?` operator on `Res<T>`: propagate errors, thread the parser. -/
def pbind (x : PRes α) (f : α → Parser → PRes β) : PRes β :=
  match x with
  | .error e => .error e
  | .ok (.error e, p) => .ok (.error e, p)
  | .ok (.ok a, p) => f a p

def pok (a : α) (p : Parser) : PRes α := .ok (.ok a, p)

def perr (e : Error) (p : Parser) : PRes α := .ok (.error e, p)

def pconsume (p : Parser) (kind : TKind) : PRes Token := .ok (p.consume kind)

/-- `i64::from_str` on an `Int` lexeme: all-digit strings within `i64` range
parse; a type suffix or an overflow makes the parser's `unwrap` panic. -/
def parse_i64 (s : String) : Option Int :=
  let cs := s.toList
  if cs ≠ [] ∧ cs.all Char.isDigit then
    let v : Nat := cs.foldl (fun acc c => acc * 10 + (c.toNat - 48)) 0
    if v ≤ 9223372036854775807 then some (Int.ofNat v) else none
  else none

/-- `Parser::typ`. -/
def Parser.typ (p : Parser) : PRes AType :=
  pbind (pconsume p .Identifier) fun name p => pok { name } p

mutual

/-- The top-level loop of `Parser::parse`: dispatch on the consumed token. -/
def Parser.parse_loop (fuel : Nat) (p : Parser) (fns : List AFunction)
    (cls : List AClass) : Except PFail (Parser × List AFunction × List AClass) :=
  match fuel with
  | 0 => .error .fuel_out
  | fuel + 1 =>
    if p.is_at_end then .ok (p, fns, cls)
    else
      let (tok, p) := p.advance
      match tok.kind with
      | .Class =>
        match Parser.class_ fuel p with
        | .error e => .error e
        | .ok (.ok c, p) => Parser.parse_loop fuel p fns (cls ++ [c])
        | .ok (.error e, p) =>
          Parser.parse_loop fuel ({ p with errors := p.errors ++ [e] }).synchronize fns cls
      | .Fun =>
        match Parser.function fuel p false with
        | .error e => .error e
        | .ok (.ok f, p) => Parser.parse_loop fuel p (fns ++ [f]) cls
        | .ok (.error e, p) =>
          Parser.parse_loop fuel ({ p with errors := p.errors ++ [e] }).synchronize fns cls
      | .ExternKw =>
        let (m, p) := p.matches .Fun
        if m then
          match Parser.function fuel p true with
          | .error e => .error e
          | .ok (.ok f, p) => Parser.parse_loop fuel p (fns ++ [f]) cls
          | .ok (.error e, p) =>
            Parser.parse_loop fuel ({ p with errors := p.errors ++ [e] }).synchronize fns cls
        else
          Parser.parse_loop fuel
            ({ p with errors := p.errors ++ [Error.new p.current.start .e102] }).synchronize fns cls
      | _ =>
        Parser.parse_loop fuel
          ({ p with errors := p.errors ++ [Error.new p.current.start .e102] }).synchronize fns cls

/-- `Parser::class`. -/
def Parser.class_ (fuel : Nat) (p : Parser) : PRes AClass :=
  match fuel with
  | 0 => .error .fuel_out
  | fuel + 1 =>
    pbind (pconsume p .Identifier) fun name p =>
    pbind (pconsume p .LeftBrace) fun _ p =>
    pbind (Parser.class_items fuel p [] [] []) fun ⟨members, methods, functions_⟩ p =>
    pbind (pconsume p .RightBrace) fun _ p =>
    pok { name, members, methods, functions := functions_ } p

/-- The member/method loop inside `Parser::class`. -/
def Parser.class_items (fuel : Nat) (p : Parser) (members : List AMember)
    (methods : List AFunction) (functions_ : List AFunction) :
    PRes (List AMember × List AFunction × List AFunction) :=
  match fuel with
  | 0 => .error .fuel_out
  | fuel + 1 =>
    if p.check .RightBrace then pok (members, methods, functions_) p
    else
      let (tok, p) := p.advance
      match tok.kind with
      | .Val =>
        pbind (Parser.member fuel p false) fun m p =>
          Parser.class_items fuel p (members ++ [m]) methods functions_
      | .Var =>
        pbind (Parser.member fuel p true) fun m p =>
          Parser.class_items fuel p (members ++ [m]) methods functions_
      | .Fun =>
        pbind (Parser.function fuel p false) fun f p =>
          Parser.class_items fuel p members (methods ++ [f]) functions_
      | .StaticKw =>
        let (m, p) := p.matches .Fun
        if m then
          pbind (Parser.function fuel p false) fun f p =>
            Parser.class_items fuel p members methods (functions_ ++ [f])
        else perr (Error.new p.current.start .e102) p
      | _ => perr (Error.new p.current.start .e102) p

/-- `Parser::member`. -/
def Parser.member (fuel : Nat) (p : Parser) (mutable : Bool) : PRes AMember :=
  match fuel with
  | 0 => .error .fuel_out
  | _fuel + 1 =>
    pbind (pconsume p .Identifier) fun name p =>
    pbind (pconsume p .Colon) fun _ p =>
    pbind (Parser.typ p) fun ty p =>
    pok { name, ty, mutable } p

/-- `Parser::function`. -/
def Parser.function (fuel : Nat) (p : Parser) (is_ext : Bool) : PRes AFunction :=
  match fuel with
  | 0 => .error .fuel_out
  | fuel + 1 =>
    pbind (pconsume p .Identifier) fun name p =>
    pbind (pconsume p .LeftParen) fun _ p =>
    pbind (if p.check .RightParen then pok [] p else Parser.params_loop fuel p [])
      fun params p =>
    pbind (pconsume p .RightParen) fun _ p =>
    let (m, p) := p.matches .Arrow
    pbind (if m then pbind (Parser.typ p) fun t p => pok (some t) p else pok none p)
      fun ret_type p =>
    if is_ext then
      pok { name, params, ret_type, body := none } p
    else
      pbind (Parser.expression fuel p) fun body p =>
      pok { name, params, ret_type, body := some body } p

/-- The parameter loop inside `Parser::function`. -/
def Parser.params_loop (fuel : Nat) (p : Parser) (acc : List AParameter) :
    PRes (List AParameter) :=
  match fuel with
  | 0 => .error .fuel_out
  | fuel + 1 =>
    pbind (pconsume p .Identifier) fun name p =>
    pbind (pconsume p .Colon) fun _ p =>
    pbind (Parser.typ p) fun ty p =>
    let acc := acc ++ [{ name := name.lex, ty : AParameter }]
    let (m, p) := p.matches .Comma
    if m then Parser.params_loop fuel p acc else pok acc p

/-- `Parser::higher_expr`. -/
def Parser.higher_expr (fuel : Nat) (p : Parser) : PRes AExpr :=
  match fuel with
  | 0 => .error .fuel_out
  | fuel + 1 =>
    if p.check_ [.Var, .Val] then Parser.var_decl fuel p else Parser.expression fuel p

/-- `Parser::var_decl`. -/
def Parser.var_decl (fuel : Nat) (p : Parser) : PRes AExpr :=
  match fuel with
  | 0 => .error .fuel_out
  | fuel + 1 =>
    let (tok, p) := p.advance
    let final_ := tok.kind = TKind.Val
    pbind (pconsume p .Identifier) fun name p =>
    pbind (pconsume p .Equal) fun _ p =>
    pbind (Parser.expression fuel p) fun value p =>
    pok (AExpr.variable name.start final_ name value) p

/-- `Parser::expression`. -/
def Parser.expression (fuel : Nat) (p : Parser) : PRes AExpr :=
  match fuel with
  | 0 => .error .fuel_out
  | fuel + 1 =>
    match p.current.kind with
    | .LeftBrace => Parser.block fuel p
    | .If => Parser.if_expr fuel p
    | .While => Parser.while_stmt fuel p
    | _ => Parser.binary fuel 0 p

/-- `Parser::block`. -/
def Parser.block (fuel : Nat) (p : Parser) : PRes AExpr :=
  match fuel with
  | 0 => .error .fuel_out
  | fuel + 1 =>
    let (brace, p) := p.advance
    pbind (Parser.block_items fuel p []) fun exprs p =>
    pbind (pconsume p .RightBrace) fun _ p =>
    pok (AExpr.block brace.start exprs) p

/-- The expression loop inside `Parser::block`. -/
def Parser.block_items (fuel : Nat) (p : Parser) (acc : List AExpr) :
    PRes (List AExpr) :=
  match fuel with
  | 0 => .error .fuel_out
  | fuel + 1 =>
    if !p.is_at_end ∧ !p.check .RightBrace then
      pbind (Parser.higher_expr fuel p) fun e p =>
        Parser.block_items fuel p (acc ++ [e])
    else pok acc p

/-- `Parser::if_expr`. -/
def Parser.if_expr (fuel : Nat) (p : Parser) : PRes AExpr :=
  match fuel with
  | 0 => .error .fuel_out
  | fuel + 1 =>
    let (tok, p) := p.advance
    pbind (pconsume p .LeftParen) fun _ p =>
    pbind (Parser.expression fuel p) fun cond p =>
    pbind (pconsume p .RightParen) fun _ p =>
    pbind (Parser.expression fuel p) fun then_ p =>
    let (m, p) := p.matches .Else
    if m then
      pbind (Parser.expression fuel p) fun e p =>
      pok (AExpr.if_ tok.start cond then_ (some e)) p
    else pok (AExpr.if_ tok.start cond then_ none) p

/-- `Parser::while_stmt`. -/
def Parser.while_stmt (fuel : Nat) (p : Parser) : PRes AExpr :=
  match fuel with
  | 0 => .error .fuel_out
  | fuel + 1 =>
    let (tok, p) := p.advance
    pbind (pconsume p .LeftParen) fun _ p =>
    pbind (Parser.expression fuel p) fun cond p =>
    pbind (pconsume p .RightParen) fun _ p =>
    pbind (Parser.expression fuel p) fun body p =>
    pok (AExpr.while_ tok.start cond body) p

/-- `Parser::binary`. -/
def Parser.binary (fuel : Nat) (minimum_binding_power : Nat) (p : Parser) :
    PRes AExpr :=
  match fuel with
  | 0 => .error .fuel_out
  | fuel + 1 =>
    pbind (Parser.unary fuel p) fun expr p =>
      Parser.binary_climb fuel minimum_binding_power expr p

/-- The operator loop inside `Parser::binary`. -/
def Parser.binary_climb (fuel : Nat) (minimum_binding_power : Nat) (expr : AExpr)
    (p : Parser) : PRes AExpr :=
  match fuel with
  | 0 => .error .fuel_out
  | fuel + 1 =>
    match p.current.kind.infix_binding_power with
    | some (lbp, rbp) =>
      if lbp < minimum_binding_power then pok expr p
      else
        let (op, p) := p.advance
        pbind (Parser.binary fuel rbp p) fun right p =>
          Parser.binary_climb fuel minimum_binding_power
            (AExpr.binary expr.start expr op right) p
    | none => pok expr p

/-- `Parser::unary`. -/
def Parser.unary (fuel : Nat) (p : Parser) : PRes AExpr :=
  match fuel with
  | 0 => .error .fuel_out
  | fuel + 1 =>
    match p.current.kind.prefix_binding_power with
    | some rbp =>
      let (op, p) := p.advance
      pbind (Parser.binary fuel rbp p) fun right p =>
      pok (AExpr.unary op.start op right) p
    | none => Parser.call fuel p

/-- `Parser::call`. -/
def Parser.call (fuel : Nat) (p : Parser) : PRes AExpr :=
  match fuel with
  | 0 => .error .fuel_out
  | fuel + 1 =>
    pbind (Parser.primary fuel p) fun expr p =>
      Parser.call_suffix fuel expr p

/-- The call-argument-list loop inside `Parser::call`. -/
def Parser.call_suffix (fuel : Nat) (expr : AExpr) (p : Parser) : PRes AExpr :=
  match fuel with
  | 0 => .error .fuel_out
  | fuel + 1 =>
    match p.current.kind with
    | .LeftParen =>
      let (_, p) := p.advance
      pbind (if p.check .RightParen then pok [] p else Parser.call_args fuel p [])
        fun args p =>
      pbind (pconsume p .RightParen) fun _ p =>
      Parser.call_suffix fuel (AExpr.call expr.start expr args) p
    | _ => pok expr p

/-- The comma-separated arguments inside `Parser::call`. -/
def Parser.call_args (fuel : Nat) (p : Parser) (acc : List AExpr) :
    PRes (List AExpr) :=
  match fuel with
  | 0 => .error .fuel_out
  | fuel + 1 =>
    pbind (Parser.expression fuel p) fun e p =>
    let acc := acc ++ [e]
    let (m, p) := p.matches .Comma
    if m then Parser.call_args fuel p acc else pok acc p

/-- `Parser::primary`.  The `unwrap` of `i64::from_str` panics on a literal
with a type suffix or out of `i64` range. -/
def Parser.primary (fuel : Nat) (p : Parser) : PRes AExpr :=
  match fuel with
  | 0 => .error .fuel_out
  | fuel + 1 =>
    match p.current.kind with
    | .False =>
      let (tok, p) := p.advance
      pok (AExpr.literal tok.start (.bool false)) p
    | .True =>
      let (tok, p) := p.advance
      pok (AExpr.literal tok.start (.bool true)) p
    | .String =>
      let (tok, p) := p.advance
      pok (AExpr.literal tok.start (.string tok.lex)) p
    | .Int =>
      match parse_i64 p.current.lex with
      | none => .error .panicked
      | some i =>
        let (tok, p) := p.advance
        pok (AExpr.literal tok.start (.int i)) p
    | .Float =>
      let (tok, p) := p.advance
      pok (AExpr.literal tok.start (.float tok.lex)) p
    | .Identifier =>
      let (tok, p) := p.advance
      pok (AExpr.identifier tok.start tok) p
    | .LeftParen =>
      let (_, p) := p.advance
      pbind (Parser.expression fuel p) fun expr p =>
      pbind (pconsume p .RightParen) fun _ p =>
      pok expr p
    | _ => perr (Error.new p.current.start .e101) p

end

/-- `Parser::parse`: run the top-level loop; a module is produced only when
no diagnostics were accumulated. -/
def Parser.parse (fuel : Nat) (p : Parser) (path : List String) :
    Except PFail (Except Errors AstModule) :=
  match Parser.parse_loop fuel p [] [] with
  | .error e => .error e
  | .ok (p, fns, cls) =>
    if p.errors.isEmpty then .ok (.ok { functions := fns, classes := cls, path })
    else .ok (.error p.errors)

end Yacuri

namespace Yacuri

/-! ## IR (`src/lang/src/compiler/ir/mod.rs`)

`MutRc<Module>` handles are modelled by a numeric module id: `Rc::ptr_eq`
becomes id equality, which is exactly the derived `PartialEq` of
`FuncRef`/`ClassRef`.  The `RefCell<Option<Type>>` type cache of `Expr`
becomes an explicit `Option Ty` field, and the cache-filling `typ()` returns
the updated expression alongside the type; `none` models the panics of
`get_type` (`Call` without a cache, `String` constants). -/

structure FuncRef where
  module : Nat
  index : Nat
deriving DecidableEq

structure ClassRef where
  module : Nat
  index : Nat
deriving DecidableEq

inductive Ty where
  | Void
  | Poison
  | Bool
  | I64
  | F64
  | Function (f : FuncRef)
  | Class (c : ClassRef)
deriving DecidableEq

/-- `Type::is_int`. -/
def Ty.is_int (t : Ty) := decide (t = Ty.I64) || decide (t = Ty.Poison)

/-- `Type::allow_math`. -/
def Ty.allow_math (t : Ty) :=
  decide (t = Ty.I64) || decide (t = Ty.F64) || decide (t = Ty.Poison)

/-- `Type::allow_logic`. -/
def Ty.allow_logic (t : Ty) := decide (t = Ty.Bool) || decide (t = Ty.Poison)

/-- `Type::allow_assignment`. -/
def Ty.allow_assignment (t : Ty) := decide (t ≠ Ty.Void)

/-- `Type::into_fn` (panics unless the type is a function type). -/
def Ty.into_fn : Ty → Option FuncRef
  | .Function r => some r
  | _ => none

/-- `Display for Type` goes through the opaque `{:?}` rendering; only used as
an inert payload of diagnostics. -/
def Ty.to_string : Ty → String
  | .Void => "Void"
  | .Poison => "Poison"
  | .Bool => "Bool"
  | .I64 => "I64"
  | .F64 => "F64"
  | .Function f => "Function(" ++ toString f.module ++ ", " ++ toString f.index ++ ")"
  | .Class c => "Class(" ++ toString c.module ++ ", " ++ toString c.index ++ ")"

structure VarStore where
  ty : Ty
  name : String
  index : Nat
  mutable : Bool
deriving DecidableEq

/-- `enum Constant`; the `f64` payload is carried as source text. -/
inductive Konst where
  | bool (b : Bool)
  | int (i : Int)
  | float (text : String)
  | string (s : String)
  | function (f : FuncRef)
  | cls (c : ClassRef)
deriving DecidableEq

/-- `Constant::from_literal`. -/
def Konst.from_literal : ALiteral → Konst
  | .bool b => .bool b
  | .int i => .int i
  | .float t => .float t
  | .string s => .string s

mutual

/-- `struct Expr { inner: Box<IExpr>, ty: RefCell<Option<Type>> }`. -/
inductive Expr where
  | mk (inner : IExpr) (cache : Option Ty)

inductive IExpr where
  | Poison
  | Binary (left : Expr) (op : Token) (right : Expr)
  | Constant (c : Konst)
  | Block (exprs : ExprList)
  | If (cond : Expr) (then_ : Expr) (els : Expr) (phi : Bool)
  | While (cond : Expr) (body : Expr)
  | Variable (index : Nat) (typ : Ty)
  | Assign (store : Expr) (value : Expr)
  | Call (callee : Expr) (args : ExprList)

/-- `Vec<Expr>` / `SmallVec<[Expr; 4]>` children, as a nested list usable in
the mutual block. -/
inductive ExprList where
  | nil
  | cons (head : Expr) (tail : ExprList)

end

def Expr.inner : Expr → IExpr
  | .mk i _ => i

def Expr.cache : Expr → Option Ty
  | .mk _ c => c

def ExprList.ofList : List Expr → ExprList
  | [] => .nil
  | e :: es => .cons e (ExprList.ofList es)

def ExprList.length : ExprList → Nat
  | .nil => 0
  | .cons _ t => 1 + t.length

mutual

/-- `Expr::typ`: return the cached type, or compute it once via `get_type`
and store it.  The returned expression carries every cache this call filled
(in Rust those writes happen through `RefCell`s). -/
def Expr.typ : Expr → Option (Ty × Expr)
  | .mk inner cache =>
    match cache with
    | some t => some (t, .mk inner cache)
    | none =>
      match IExpr.get_type inner with
      | none => none
      | some (t, inner') => some (t, .mk inner' (some t))

/-- `Expr::get_type`, on the inner node.  `Call` panics (its type is always
pre-cached by `Expr::call`), as does a `String` constant (`unimplemented!`). -/
def IExpr.get_type : IExpr → Option (Ty × IExpr)
  | .Poison => some (.Poison, .Poison)
  | .Binary left op right =>
    if op.kind.is_binary_logic then some (.Bool, .Binary left op right)
    else
      match left.typ with
      | none => none
      | some (t, left') => some (t, .Binary left' op right)
  | .Constant (.bool b) => some (.Bool, .Constant (.bool b))
  | .Constant (.int i) => some (.I64, .Constant (.int i))
  | .Constant (.float t) => some (.F64, .Constant (.float t))
  | .Constant (.string _) => none
  | .Constant (.function f) => some (.Function f, .Constant (.function f))
  | .Constant (.cls c) => some (.Class c, .Constant (.cls c))
  | .Block exprs =>
    match ExprList.typ_last exprs with
    | none => some (.Void, .Block exprs)
    | some none => none
    | some (some (t, exprs')) => some (t, .Block exprs')
  | .If cond then_ els phi =>
    if !phi then some (.Void, .If cond then_ els phi)
    else
      match then_.typ with
      | none => none
      | some (t, then') => some (t, .If cond then' els phi)
  | .While cond body => some (.Void, .While cond body)
  | .Variable index typ => some (typ, .Variable index typ)
  | .Assign store value =>
    match value.typ with
    | none => none
    | some (t, value') => some (t, .Assign store value')
  | .Call _ _ => none

/-- `expr.last().map(|e| e.typ())`: query the type of the last child, filling
only that child's cache.  The outer `Option` distinguishes the empty list
(`none` = no last element), the inner one a panic inside the child's `typ`. -/
def ExprList.typ_last : ExprList → Option (Option (Ty × ExprList))
  | .nil => none
  | .cons e .nil =>
    match e.typ with
    | none => some none
    | some (t, e') => some (some (t, .cons e' .nil))
  | .cons e (.cons f t) =>
    match ExprList.typ_last (.cons f t) with
    | none => none
    | some none => some none
    | some (some (ty, rest')) => some (some (ty, .cons e rest'))

end

/-- `Expr::new`. -/
def Expr.new (inner : IExpr) : Expr := .mk inner none

/-- `Expr::with_typ`. -/
def Expr.with_typ (inner : IExpr) (typ : Ty) : Expr := .mk inner (some typ)

/-- `Expr::zero`. -/
def Expr.zero : Expr := Expr.new (.Constant (.int 0))

/-- `Expr::poison`. -/
def Expr.poison : Expr := Expr.new .Poison

/-- `Expr::binary`. -/
def Expr.binary (left : Expr) (op : Token) (right : Expr) : Expr :=
  Expr.new (.Binary left op right)

/-- `Expr::constant`. -/
def Expr.constant (lit : Konst) : Expr := Expr.new (.Constant lit)

/-- `Expr::block`. -/
def Expr.block (exprs : ExprList) : Expr := Expr.new (.Block exprs)

/-- `Expr::if_`: `phi` is `els.is_some() && then.typ() == els.unwrap().typ()`
(no check that the shared type is not `Void`); a missing `else` is replaced
by `Expr::zero()`.  The `typ()` calls fill the branches' caches, and can
panic (`none`). -/
def Expr.if_ (cond : Expr) (then_ : Expr) (els : Option Expr) : Option Expr :=
  match els with
  | none => some (Expr.new (.If cond then_ Expr.zero false))
  | some e =>
    match then_.typ with
    | none => none
    | some (tt, then') =>
      match e.typ with
      | none => none
      | some (te, e') => some (Expr.new (.If cond then' e' (tt = te)))

/-- `Expr::while_`. -/
def Expr.while_ (cond : Expr) (body : Expr) : Expr := Expr.new (.While cond body)

/-- `Expr::local`. -/
def Expr.local (v : VarStore) : Expr := Expr.new (.Variable v.index v.ty)

/-- `Expr::assign`. -/
def Expr.assign (store : Expr) (value : Expr) : Expr := Expr.new (.Assign store value)

/-- `Expr::assign_local`. -/
def Expr.assign_local (v : VarStore) (value : Expr) : Expr :=
  Expr.assign (Expr.local v) value

/-- `Expr::call`: the only constructor that pre-fills the type cache. -/
def Expr.call (callee : Expr) (args : ExprList) (ret_type : Ty) : Expr :=
  Expr.with_typ (.Call callee args) ret_type

/-- `Expr::assignable`. -/
def Expr.assignable (e : Expr) : Bool :=
  match e.inner with
  | .Variable _ _ => true
  | _ => false

/-- The `phi` flag of an `If` node. -/
def Expr.phi_flag (e : Expr) : Option Bool :=
  match e.inner with
  | .If _ _ _ phi => some phi
  | _ => none

end Yacuri

namespace Yacuri

/-! ## Module compiler (`src/lang/src/compiler/module/...`, `compiler/ir/mod.rs`)

`ModuleCompiler` holds a `MutRc<Module>` plus the diagnostics list; the
handle is modelled by carrying the module value and its id.  The snapshot's
`module/mod.rs` constructor predates the four-field `Module` (it lacks
`classes`); the embedding uses the `Module::from_ast` shape with an empty
class vector, which is what every pass expects.  Dynamic `RefCell` borrow
failures are outside the shallow embedding. -/

structure IRFunction where
  name : String
  params : List VarStore
  ret_type : Ty
  locals : List VarStore
  body : Expr
  ir : Option Nat
  ast : AFunction

inductive ClassContent where
  | member (v : VarStore)
  | method (f : FuncRef)
  | function (f : FuncRef)

structure IRClass where
  name : String
  content : List (String × ClassContent)
  ast : AClass

structure IRModule where
  funcs : List IRFunction
  classes : List IRClass
  reserved_names : List String
  ast : AstModule

structure ModuleCompiler where
  module : IRModule
  module_id : Nat
  errors : Errors

/-- `Module::try_reserve_name`: `HashSet::insert` returns `false` when the
name is already present, which becomes an `E201`. -/
def IRModule.try_reserve_name (m : IRModule) (name : String) (pos : Nat) :
    Except Error IRModule :=
  if name ∈ m.reserved_names then .error (Error.new pos (.e201 name))
  else .ok { m with reserved_names := m.reserved_names ++ [name] }

/-- `Module::from_ast` (combined with `ModuleCompiler::new`). -/
def ModuleCompiler.new (ast : AstModule) (module_id : Nat) : ModuleCompiler :=
  { module := { funcs := [], classes := [], reserved_names := [], ast },
    module_id, errors := [] }

/-- Linear search `position` as used by `resolve_ty_name`/`find_function`. -/
def position (p : α → Bool) : List α → Option Nat
  | [] => none
  | a :: as_ => if p a then some 0 else (position p as_).map (· + 1)

/-- `ModuleCompiler::resolve_ty_name` (`module/resolver.rs`): primitives map
directly, anything else is a linear search through the module's classes, and
an unknown name is `E200`. -/
def ModuleCompiler.resolve_ty_name (mc : ModuleCompiler) (name : String)
    (pos : Nat) : Except Error Ty :=
  if name = "bool" then .ok .Bool
  else if name = "i64" then .ok .I64
  else if name = "f64" then .ok .F64
  else
    match position (fun cls => cls.name = name) mc.module.classes with
    | some index => .ok (.Class { module := mc.module_id, index })
    | none => .error (Error.new pos (.e200 name))

/-- `ModuleCompiler::resolve_ty`. -/
def ModuleCompiler.resolve_ty (mc : ModuleCompiler) (ty : AType) : Except Error Ty :=
  mc.resolve_ty_name ty.name.lex ty.name.start

/-! ### Expression compiler (`module/expr_compiler.rs`) -/

/-- The environment stack: innermost scope first (Rust pushes scopes at the
end of a `Vec` and searches it in reverse). -/
abbrev EnvStack := List (List (String × VarStore))

/-- The state the expression compiler mutates: the enclosing function (whose
`locals` grow through `add_local`) and the scope stack. -/
structure ECState where
  function : IRFunction
  environments : EnvStack

/-- `ExprCompiler::err` in the snapshot is an empty stub (its body is the
comment `// self.compiler.errors`): diagnostics are dropped. -/
def ExprCompiler.err (_pos : Nat) (_err : ErrorKind) : Unit := ()

/-- `ExprCompiler::find_local`: innermost environment first, first hit wins. -/
def ExprCompiler.find_local (envs : EnvStack) (name : String) : Option VarStore :=
  match envs with
  | [] => none
  | env :: rest =>
    match env.find? (fun e => e.1 = name) with
    | some e => some e.2
    | none => ExprCompiler.find_local rest name

/-- `ExprCompiler::find_function`: linear search of the module's functions. -/
def ExprCompiler.find_function (mc : ModuleCompiler) (name : String) : Option FuncRef :=
  (position (fun f => f.name = name) mc.module.funcs).map
    fun index => { module := mc.module_id, index }

/-- `Function::add_local`: append a `VarStore` with the next index. -/
def ECState.add_local (st : ECState) (name : String) (ty : Ty) (mutable : Bool) :
    ECState × VarStore :=
  let local_ : VarStore :=
    { ty, name, index := st.function.locals.length, mutable }
  ({ st with function := { st.function with locals := st.function.locals ++ [local_] } },
   local_)

/-- `ExprCompiler::add_to_scope`: insert into the innermost environment
(HashMap insert: the new binding shadows an existing one). -/
def ECState.add_to_scope (st : ECState) (v : VarStore) : ECState :=
  match st.environments with
  | [] => st
  | env :: rest => { st with environments := ((v.name, v) :: env) :: rest }

/-- The per-position argument check of the `Call` arm: `zip` the arguments
with the parameters, query each argument's type (filling its cache), and
drop the `E508` diagnostics.  Returns the cache-updated arguments. -/
def ExprCompiler.check_args : ExprList → List VarStore → Nat → Option ExprList
  | .nil, _, _ => some .nil
  | es, [], _ => some es
  | .cons e es, param :: ps, start =>
    match e.typ with
    | none => none
    | some (aty, e') =>
      let _ :=
        if aty ≠ param.ty then
          some (ExprCompiler.err start (.e508 param.ty.to_string aty.to_string 0))
        else none
      match ExprCompiler.check_args es ps start with
      | none => none
      | some es' => some (.cons e' es')

mutual

/-- `ExprCompiler::expr`: lower one AST expression to IR.  Every `self.err`
call is the dropped-diagnostic stub.  `none` models a panic (`Unary` and any
other unhandled node, or a panicking `typ()`). -/
def ExprCompiler.expr (mc : ModuleCompiler) (st : ECState) :
    AExpr → Option (ECState × Expr)
  | .literal _ lit => some (st, Expr.constant (Konst.from_literal lit))
  | .binary _ left op right =>
    match ExprCompiler.expr mc st left with
    | none => none
    | some (st, left) =>
      match ExprCompiler.expr mc st right with
      | none => none
      | some (st, right) =>
        match left.typ with
        | none => none
        | some (lty, left) =>
          match right.typ with
          | none => none
          | some (rty, right) =>
            let logic := op.kind.is_binary_logic
            if lty ≠ rty then
              let _ := ExprCompiler.err op.start (.e500 lty.to_string rty.to_string)
              some (st, Expr.binary left op right)
            else if op.kind = TKind.Equal then
              let _ :=
                if !left.assignable then some (ExprCompiler.err op.start .e505) else none
              some (st, Expr.assign left right)
            else if (logic && !lty.allow_logic) || (!logic && !lty.allow_math) then
              let _ := ExprCompiler.err op.start (.e501 op.lex lty.to_string)
              some (st, Expr.binary left op right)
            else
              some (st, Expr.binary left op right)
  | .block _ exprs =>
    let st := { st with environments := [] :: st.environments }
    match ExprCompiler.expr_list mc st exprs with
    | none => none
    | some (st, exprs) =>
      let st := { st with environments := st.environments.tail }
      some (st, Expr.block exprs)
  | .if_ _ cond then_ els =>
    match ExprCompiler.expr mc st cond with
    | none => none
    | some (st, condition) =>
      match condition.typ with
      | none => none
      | some (cty, condition) =>
        let _ := if cty ≠ Ty.Bool then some (ExprCompiler.err cond.start .e502) else none
        match ExprCompiler.expr mc st then_ with
        | none => none
        | some (st, then_) =>
          match els with
          | none =>
            match Expr.if_ condition then_ none with
            | none => none
            | some e => some (st, e)
          | some els =>
            match ExprCompiler.expr mc st els with
            | none => none
            | some (st, els) =>
              match Expr.if_ condition then_ (some els) with
              | none => none
              | some e => some (st, e)
  | .while_ _ cond body =>
    match ExprCompiler.expr mc st cond with
    | none => none
    | some (st, condition) =>
      match condition.typ with
      | none => none
      | some (cty, condition) =>
        let _ := if cty ≠ Ty.Bool then some (ExprCompiler.err cond.start .e502) else none
        match ExprCompiler.expr mc st body with
        | none => none
        | some (st, body) => some (st, Expr.while_ condition body)
  | .identifier _ ident =>
    match ExprCompiler.find_local st.environments ident.lex with
    | some local_ => some (st, Expr.local local_)
    | none =>
      match ExprCompiler.find_function mc ident.lex with
      | some func => some (st, Expr.constant (.function func))
      | none =>
        let _ := ExprCompiler.err ident.start (.e503 ident.lex)
        some (st, Expr.poison)
  | .variable _ final_ name value =>
    match ExprCompiler.expr mc st value with
    | none => none
    | some (st, value) =>
      match value.typ with
      | none => none
      | some (ty, value) =>
        let _ :=
          if !ty.allow_assignment then
            some (ExprCompiler.err name.start (.e504 ty.to_string))
          else none
        let (st, local_) := st.add_local name.lex ty (!final_)
        let st := st.add_to_scope local_
        some (st, Expr.assign_local local_ value)
  | .call _ callee args =>
    let start := callee.start
    match ExprCompiler.expr mc st callee with
    | none => none
    | some (st, callee) =>
      match callee.typ with
      | none => none
      | some (cty, callee) =>
        match cty with
        | .Function fn_ref =>
          match mc.module.funcs[fn_ref.index]? with
          | none => none
          | some func =>
            match ExprCompiler.expr_args mc st args with
            | none => none
            | some (st, argList) =>
              let _ :=
                if argList.length ≠ func.params.length then
                  some (ExprCompiler.err start (.e507 func.params.length argList.length))
                else none
              match ExprCompiler.check_args argList func.params start with
              | none => none
              | some argList => some (st, Expr.call callee argList func.ret_type)
        | _ =>
          let _ := ExprCompiler.err start (.e506 cty.to_string)
          some (st, Expr.poison)
  | .unary _ _ _ => none

/-- Compile the children of a `Block` in order (`exprs.iter().map(...)`). -/
def ExprCompiler.expr_list (mc : ModuleCompiler) (st : ECState) :
    List AExpr → Option (ECState × ExprList)
  | [] => some (st, .nil)
  | e :: es =>
    match ExprCompiler.expr mc st e with
    | none => none
    | some (st, e') =>
      match ExprCompiler.expr_list mc st es with
      | none => none
      | some (st, es') => some (st, .cons e' es')

/-- Compile call arguments in order. -/
def ExprCompiler.expr_args (mc : ModuleCompiler) (st : ECState) :
    List AExpr → Option (ECState × ExprList)
  | [] => some (st, .nil)
  | e :: es =>
    match ExprCompiler.expr mc st e with
    | none => none
    | some (st, e') =>
      match ExprCompiler.expr_args mc st es with
      | none => none
      | some (st, es') => some (st, .cons e' es')

end

/-- `ExprCompiler::new`: the bottom environment holds the parameters. -/
def ExprCompiler.new_state (f : IRFunction) : ECState :=
  { function := f,
    environments := [f.params.foldl (fun env p => (p.name, p) :: env) []] }

end Yacuri

namespace Yacuri

/-! ### Passes (`module/passes/mod.rs`) -/

/-- The loop of `declare_classes`: reserve each class name (E201 on a
duplicate) and push an empty class record. -/
def ModuleCompiler.declare_classes_loop (mc : ModuleCompiler) :
    List AClass → Except Error ModuleCompiler
  | [] => .ok mc
  | cls :: rest => do
    let m ← mc.module.try_reserve_name cls.name.lex cls.name.start
    let mc :=
      { mc with
          module :=
            { m with
                classes :=
                  m.classes ++ [{ name := cls.name.lex, content := [], ast := cls }] } }
    ModuleCompiler.declare_classes_loop mc rest

/-- `declare_classes`: drains `ast.classes` (`mem::replace`). -/
def ModuleCompiler.declare_classes (mc : ModuleCompiler) : Except Error ModuleCompiler :=
  let ast_cls := mc.module.ast.classes
  let mc := { mc with module := { mc.module with ast := { mc.module.ast with classes := [] } } }
  mc.declare_classes_loop ast_cls

/-- Parameter resolution inside `declare_function` (`enumerate` + collect,
stopping at the first error). -/
def ModuleCompiler.resolve_params (mc : ModuleCompiler) :
    List AParameter → Nat → Except Error (List VarStore)
  | [], _ => .ok []
  | p :: ps, index => do
    let ty ← mc.resolve_ty p.ty
    let rest ← mc.resolve_params ps (index + 1)
    .ok ({ ty, name := p.name, index, mutable := false } :: rest)

/-- `declare_function`: resolve the signature, push an IR function whose body
is a `Poison` placeholder, and return a `FuncRef` to it. -/
def ModuleCompiler.declare_function (mc : ModuleCompiler) (func : AFunction) :
    Except Error (ModuleCompiler × FuncRef) := do
  let params ← mc.resolve_params func.params 0
  let ret_type ←
    match func.ret_type with
    | some t => mc.resolve_ty t
    | none => .ok Ty.Void
  let f : IRFunction :=
    { name := func.name.lex, body := Expr.poison, params, locals := [], ret_type,
      ir := none, ast := func }
  let mc := { mc with module := { mc.module with funcs := mc.module.funcs ++ [f] } }
  .ok (mc, { module := mc.module_id, index := mc.module.funcs.length - 1 })

/-- The loop of `declare_functions`. -/
def ModuleCompiler.declare_functions_loop (mc : ModuleCompiler) :
    List AFunction → Except Error ModuleCompiler
  | [] => .ok mc
  | func :: rest => do
    let m ← mc.module.try_reserve_name func.name.lex func.name.start
    let (mc, _) ← ModuleCompiler.declare_function { mc with module := m } func
    ModuleCompiler.declare_functions_loop mc rest

/-- `declare_functions`: drains `ast.functions`. -/
def ModuleCompiler.declare_functions (mc : ModuleCompiler) : Except Error ModuleCompiler :=
  let ast_fns := mc.module.ast.functions
  let mc := { mc with module := { mc.module with ast := { mc.module.ast with functions := [] } } }
  mc.declare_functions_loop ast_fns

/-- `IndexMap::insert`: replace in place, or append a new entry. -/
def indexmap_insert (k : String) (v : ClassContent) :
    List (String × ClassContent) → List (String × ClassContent)
  | [] => [(k, v)]
  | (k', v') :: rest =>
    if k' = k then (k', v) :: rest else (k', v') :: indexmap_insert k v rest

/-- Replace class `ci` of the module by `f` applied to it. -/
def ModuleCompiler.update_class (mc : ModuleCompiler) (ci : Nat)
    (f : IRClass → IRClass) : ModuleCompiler :=
  match mc.module.classes[ci]? with
  | none => mc
  | some cls =>
    { mc with module := { mc.module with classes := mc.module.classes.set ci (f cls) } }

/-- The member loop of `generate_classes`. -/
def ModuleCompiler.generate_members (mc : ModuleCompiler) (ci : Nat) :
    List AMember → Nat → Except Error ModuleCompiler
  | [], _ => .ok mc
  | member :: rest, index => do
    let ty ← mc.resolve_ty member.ty
    let store : VarStore := { ty, name := member.name.lex, index, mutable := member.mutable }
    let mc := mc.update_class ci fun cls =>
      { cls with content := indexmap_insert member.name.lex (.member store) cls.content }
    mc.generate_members ci rest (index + 1)

/-- The method / static-function loops of `generate_classes`: each drained
AST function is declared as a module-level IR function and inserted into the
class content under the given constructor. -/
def ModuleCompiler.generate_class_fns (mc : ModuleCompiler) (ci : Nat)
    (mk : FuncRef → ClassContent) :
    List AFunction → Except Error ModuleCompiler
  | [] => .ok mc
  | method :: rest => do
    let name := method.name.lex
    let (mc, fr) ← mc.declare_function method
    let mc := mc.update_class ci fun cls =>
      { cls with content := indexmap_insert name (mk fr) cls.content }
    mc.generate_class_fns ci mk rest

/-- The per-class body of `generate_classes`; methods and static functions
are drained from the class AST afterwards. -/
def ModuleCompiler.generate_one_class (mc : ModuleCompiler) (ci : Nat) :
    Except Error ModuleCompiler := do
  match mc.module.classes[ci]? with
  | none => .ok mc
  | some cls => do
    let ast := cls.ast
    let mc ← mc.generate_members ci ast.members 0
    let mc ← mc.generate_class_fns ci ClassContent.method ast.methods
    let mc ← mc.generate_class_fns ci ClassContent.function ast.functions
    let mc := mc.update_class ci fun cls =>
      { cls with ast := { cls.ast with methods := [], functions := [] } }
    .ok mc

def ModuleCompiler.generate_classes_loop (mc : ModuleCompiler) :
    List Nat → Except Error ModuleCompiler
  | [] => .ok mc
  | ci :: rest => do
    let mc ← mc.generate_one_class ci
    mc.generate_classes_loop rest

/-- `generate_classes`. -/
def ModuleCompiler.generate_classes (mc : ModuleCompiler) : Except Error ModuleCompiler :=
  mc.generate_classes_loop (List.range mc.module.classes.length)

/-- The loop of `generate_functions`: compile the body of every IR function
that has an AST body and store it (together with the locals `add_local`
appended). -/
def ModuleCompiler.generate_functions_loop (mc : ModuleCompiler) :
    List Nat → Option ModuleCompiler
  | [] => some mc
  | i :: rest =>
    match mc.module.funcs[i]? with
    | none => none
    | some f =>
      match f.ast.body with
      | none => mc.generate_functions_loop rest
      | some body_ast =>
        match ExprCompiler.expr mc (ExprCompiler.new_state f) body_ast with
        | none => none
        | some (st, body) =>
          let f' := { st.function with body := body }
          ModuleCompiler.generate_functions_loop
            { mc with module := { mc.module with funcs := mc.module.funcs.set i f' } } rest

/-- `generate_functions`. -/
def ModuleCompiler.generate_functions (mc : ModuleCompiler) : Option ModuleCompiler :=
  mc.generate_functions_loop (List.range mc.module.funcs.length)

/-- `ModuleCompiler::stage_1`: the four passes, each behind an `unwrap` that
panics (`none`) on the first `Err` (duplicate name E201, unknown type E200). -/
def ModuleCompiler.stage_1 (mc : ModuleCompiler) : Option ModuleCompiler :=
  match mc.declare_classes with
  | .error _ => none
  | .ok mc =>
    match mc.declare_functions with
    | .error _ => none
    | .ok mc =>
      match mc.generate_classes with
      | .error _ => none
      | .ok mc => mc.generate_functions

/-- `ModuleCompiler::run_all`. -/
def ModuleCompiler.run_all (mc : ModuleCompiler) : Option ModuleCompiler :=
  mc.stage_1

/-- `ModuleCompiler::consume`: run the passes, then `Ok(module)` if the
diagnostics list is empty, `Err(errors)` otherwise. -/
def ModuleCompiler.consume (mc : ModuleCompiler) : Option (Except Errors IRModule) :=
  match mc.run_all with
  | none => none
  | some mc =>
    if mc.errors.isEmpty then some (.ok mc.module) else some (.error mc.errors)

/-! ## Embedding front end (`src/lang/src/lib.rs`) -/

/-- What `execute_module` does up to (and including) the decision to invoke
the JIT: parse, compile, and on success hand the IR to `JIT::jit_module` /
`exec("main")`.  `panicked` models a Rust panic, `fuel_out` is the Lean-side
fuel artifact of the recursive-descent parser. -/
inductive FrontOutcome where
  | panicked
  | fuel_out
  | parse_errors (errs : Errors)
  | compile_errors (errs : Errors)
  | jit_invoked (ir : IRModule)

/-- `execute_module(program, symbols)`, stopped at the JIT boundary. -/
def execute_module_front (src : String) : FrontOutcome :=
  match Parser.new src with
  | none => .panicked
  | some p =>
    match p.parse (src.length * 4 + 64) ["script"] with
    | .error .panicked => .panicked
    | .error .fuel_out => .fuel_out
    | .ok (.error errs) => .parse_errors errs
    | .ok (.ok ast) =>
      match (ModuleCompiler.new ast 0).consume with
      | none => .panicked
      | some (.error errs) => .compile_errors errs
      | some (.ok ir) => .jit_invoked ir

def FrontOutcome.is_jit : FrontOutcome → Bool
  | .jit_invoked _ => true
  | _ => false

end Yacuri

namespace Yacuri

/-! ## JIT function translator (`src/lang/src/vm/function/exprs.rs`,
`src/lang/src/vm/typesys.rs`)

Cranelift is modelled just far enough to capture the translator's control
flow and panics: SSA values are numbered by a counter, every emitted
instruction result is a fresh value, and `CValue` is the list of values an
expression produces.  Panics (`unwrap`, out-of-bounds indexing, missing
match arms) are `.error .panicked`; class types can recurse through the
module, so the slot counter carries fuel. -/

abbrev CValue := List Nat

structure TransState where
  next_value : Nat
  local_offsets : List Nat

/-- Allocate `n` fresh SSA values. -/
def TransState.fresh (st : TransState) (n : Nat) : TransState × CValue :=
  ({ st with next_value := st.next_value + n },
   (List.range n).map (· + st.next_value))

mutual

/-- `typesys::translate_type`, reduced to the number of scalar slots a type
occupies: `Void`/`Poison` are zero-sized, scalars and function values take
one slot, classes flatten their leading `Member` entries recursively. -/
def translate_type_count (m : IRModule) : Nat → Ty → Option Nat
  | _, .Void => some 0
  | _, .Poison => some 0
  | _, .Bool => some 1
  | _, .I64 => some 1
  | _, .F64 => some 1
  | _, .Function _ => some 1
  | 0, .Class _ => none
  | fuel + 1, .Class cref =>
    match m.classes[cref.index]? with
    | none => none
    | some cls => class_members_count m fuel cls.content

/-- The member loop of `translate_type_ref`: sum the members' slot counts,
stopping at the first non-`Member` entry (`_ => break`). -/
def class_members_count (m : IRModule) : Nat → List (String × ClassContent) → Option Nat
  | _, [] => some 0
  | fuel, (_, .member v) :: rest =>
    match translate_type_count m fuel v.ty with
    | none => none
    | some n =>
      match class_members_count m fuel rest with
      | none => none
      | some rest_n => some (n + rest_n)
  | _, (_, .method _) :: _ => some 0
  | _, (_, .function _) :: _ => some 0

end

mutual

/-- `FnTranslator::trans_expr`.  The `Block` arm folds its children through
`value = Some(...)` and `unwrap`s the accumulator, so a `Block` with zero
children panics. -/
def FnTranslator.trans_expr (fuel : Nat) (m : IRModule) (st : TransState) (e : Expr) :
    Except PFail (TransState × CValue) :=
  match fuel with
  | 0 => .error .fuel_out
  | fuel + 1 =>
    match e.inner with
    | .Binary left _ right =>
      match FnTranslator.trans_expr fuel m st left with
      | .error e => .error e
      | .ok (st, lv) =>
        match lv[0]? with
        | none => .error .panicked
        | some _ =>
          match FnTranslator.trans_expr fuel m st right with
          | .error e => .error e
          | .ok (st, rv) =>
            match rv[0]? with
            | none => .error .panicked
            | some _ =>
              match left.typ with
              | none => .error .panicked
              | some _ =>
                let (st, v) := st.fresh 1
                .ok (st, v)
    | .Constant (.bool _) => let (st, v) := st.fresh 1; .ok (st, v)
    | .Constant (.int _) => let (st, v) := st.fresh 1; .ok (st, v)
    | .Constant (.float _) => let (st, v) := st.fresh 1; .ok (st, v)
    | .Constant (.string _) => .error .panicked
    | .Constant (.function _) => let (st, v) := st.fresh 1; .ok (st, v)
    | .Constant (.cls _) => .error .panicked
    | .Block insts =>
      match FnTranslator.trans_block fuel m st insts none with
      | .error e => .error e
      | .ok (_, none) => .error .panicked
      | .ok (st, some v) => .ok (st, v)
    | .If cond then_ els phi =>
      match FnTranslator.trans_expr fuel m st cond with
      | .error e => .error e
      | .ok (st, cv) =>
        match cv[0]? with
        | none => .error .panicked
        | some _ =>
          match then_.typ with
          | none => .error .panicked
          | some (then_ty, _) =>
            match translate_type_count m fuel then_ty with
            | none => .error .panicked
            | some slots =>
              match FnTranslator.trans_expr fuel m st then_ with
              | .error e => .error e
              | .ok (st, _) =>
                match FnTranslator.trans_expr fuel m st els with
                | .error e => .error e
                | .ok (st, _) =>
                  if phi then
                    let (st, v) := st.fresh slots
                    .ok (st, v)
                  else .ok (st, [])
    | .While cond body =>
      match FnTranslator.trans_expr fuel m st cond with
      | .error e => .error e
      | .ok (st, cv) =>
        match cv[0]? with
        | none => .error .panicked
        | some _ =>
          match FnTranslator.trans_expr fuel m st body with
          | .error e => .error e
          | .ok (st, _) =>
            let (st, v) := st.fresh 1
            .ok (st, v)
    | .Variable index typ =>
      match st.local_offsets[index]? with
      | none => .error .panicked
      | some _ =>
        match translate_type_count m fuel typ with
        | none => .error .panicked
        | some slots =>
          let (st, v) := st.fresh slots
          .ok (st, v)
    | .Assign store value =>
      match store.inner with
      | .Variable index typ =>
        match st.local_offsets[index]? with
        | none => .error .panicked
        | some _ =>
          match FnTranslator.trans_expr fuel m st value with
          | .error e => .error e
          | .ok (st, v) =>
            match translate_type_count m fuel typ with
            | none => .error .panicked
            | some slots =>
              if slots ≤ v.length then .ok (st, v) else .error .panicked
      | _ => .error .panicked
    | .Call callee args =>
      match FnTranslator.trans_expr fuel m st callee with
      | .error e => .error e
      | .ok (st, _) =>
        match callee.typ with
        | none => .error .panicked
        | some (cty, _) =>
          match cty.into_fn with
          | none => .error .panicked
          | some fr =>
            match m.funcs[fr.index]? with
            | none => .error .panicked
            | some func =>
              match FnTranslator.trans_args fuel m st args with
              | .error e => .error e
              | .ok (st, _) =>
                match translate_type_count m fuel func.ret_type with
                | none => .error .panicked
                | some slots =>
                  let (st, v) := st.fresh slots
                  .ok (st, v)
    | .Poison => .error .panicked

/-- The child loop of the `Block` arm: `value = Some(self.trans_expr(inst))`
for each child. -/
def FnTranslator.trans_block (fuel : Nat) (m : IRModule) (st : TransState) :
    ExprList → Option CValue → Except PFail (TransState × Option CValue)
  | .nil, acc => .ok (st, acc)
  | .cons e rest, _ =>
    match fuel with
    | 0 => .error .fuel_out
    | fuel + 1 =>
      match FnTranslator.trans_expr fuel m st e with
      | .error err => .error err
      | .ok (st, v) => FnTranslator.trans_block fuel m st rest (some v)

/-- The argument loop of the `Call` arm: translate and flatten. -/
def FnTranslator.trans_args (fuel : Nat) (m : IRModule) (st : TransState) :
    ExprList → Except PFail (TransState × CValue)
  | .nil => .ok (st, [])
  | .cons e rest =>
    match fuel with
    | 0 => .error .fuel_out
    | fuel + 1 =>
      match FnTranslator.trans_expr fuel m st e with
      | .error err => .error err
      | .ok (st, v) =>
        match FnTranslator.trans_args fuel m st rest with
        | .error err => .error err
        | .ok (st, vs) => .ok (st, v ++ vs)

end

end Yacuri

namespace Yacuri

/-- A compiler over a module with a single class `Foo`, used to exercise the
type resolver at concrete inputs. -/
def resolver_witness_mc : ModuleCompiler :=
  { module :=
      { funcs := [], reserved_names := ["Foo"],
        classes :=
          [{ name := "Foo", content := [],
             ast := { name := { kind := .Identifier, lex := "Foo", start := 6 },
                      members := [], methods := [], functions := [] } }],
        ast := { functions := [], classes := [], path := ["script"] } },
    module_id := 0, errors := [] }

/-! ## Helper lemmas -/

theorem take_takeWhile_eq (p : Nat → Bool) (l : List Nat) :
    l.take (l.takeWhile p).length = l.takeWhile p := by
  have h := List.takeWhile_prefix (l := l) (p := p)
  exact (List.prefix_iff_eq_take.mp h).symm

theorem srepr_roundtrip (t : ByteStr) : (SRepr.new t).as_str = t := by
  simp only [SRepr.new]
  split
  · rfl
  · split
    · split
      · rename_i hlong _ hcond
        obtain ⟨hsp, hall⟩ := hcond
        set k := min t.length N_NEWLINES with hk
        set n := ((t.take k).takeWhile (fun b => b = 10)).length with hn
        have hnk : n ≤ k := by
          have hp := (List.takeWhile_prefix (l := t.take k)
            (p := fun b => (b = 10 : Bool))).length_le
          calc n ≤ (t.take k).length := hp
            _ ≤ k := by simp [List.length_take]
        have hnt : n ≤ t.length := le_trans hnk (by simp [hk])
        have htake : t.take n = List.replicate n 10 := by
          have h1 : (t.take k).take n = (t.take k).takeWhile (fun b => b = 10) :=
            take_takeWhile_eq _ _
          have h2 : (t.take k).take n = t.take n := by
            rw [List.take_take]
            congr 1
            omega
          rw [← h2, h1]
          rw [List.eq_replicate]
          constructor
          · rw [← h1, h2]
            simp [List.length_take]
            omega
          · intro b hb
            have := List.mem_takeWhile_imp hb
            simpa using this
        have hdrop : t.drop n = List.replicate (t.length - n) 32 := by
          rw [List.eq_replicate]
          constructor
          · simp
          · intro b hb
            have := List.all_eq_true.mp hall b hb
            simpa using this
        simp only [SRepr.as_str]
        rw [← htake, ← hdrop]
        exact List.take_append_drop n t
      · rfl
    · rfl

theorem smolstr_as_str_new (s : ByteStr) : (SmolStr.new s).as_str = s :=
  srepr_roundtrip s

end Yacuri

namespace Yacuri

/-- C8: for all byte strings s and t, `SmolStr::new(s) == SmolStr::new(t)`
holds iff s and t are byte-for-byte equal; across all three internal
representations `as_str` returns exactly the constructed string, and
equality and hashing go through that content. -/
theorem smolstr_content_equality (s t : ByteStr) (h : ByteStr → Nat) :
    (SmolStr.beq (SmolStr.new s) (SmolStr.new t) = true ↔ s = t) ∧
    (SmolStr.new s).as_str = s ∧
    SmolStr.hashWith h (SmolStr.new s) = h s := by
  refine ⟨?_, smolstr_as_str_new s, ?_⟩
  · unfold SmolStr.beq
    rw [smolstr_as_str_new s, smolstr_as_str_new t]
    exact decide_eq_true_iff
  · unfold SmolStr.hashWith
    rw [smolstr_as_str_new s]

/-- C5: `Poison` satisfies every type predicate of the expression compiler,
while for non-Poison types `is_int` holds only for `I64`, `allow_math` only
for `I64`/`F64`, and `allow_logic` only for `Bool`. -/
theorem poison_satisfies_predicates :
    (Ty.Poison.is_int = true ∧ Ty.Poison.allow_math = true ∧
      Ty.Poison.allow_logic = true) ∧
    (∀ t : Ty, t ≠ Ty.Poison →
      ((t.is_int = true ↔ t = Ty.I64) ∧
       (t.allow_math = true ↔ (t = Ty.I64 ∨ t = Ty.F64)) ∧
       (t.allow_logic = true ↔ t = Ty.Bool))) := by
  refine ⟨⟨rfl, rfl, rfl⟩, ?_⟩
  intro t ht
  cases t <;> simp_all [Ty.is_int, Ty.allow_math, Ty.allow_logic]

/-- Witness for C5 at the concrete non-Poison types `I64` and `Bool`. -/
theorem poison_satisfies_predicates_witness :
    Ty.I64.is_int = true ∧ Ty.Bool.allow_logic = true :=
  ⟨((poison_satisfies_predicates.2 Ty.I64 (by decide)).1).mpr rfl,
   ((poison_satisfies_predicates.2 Ty.Bool (by decide)).2.2).mpr rfl⟩

/-- C6: `typ()` is idempotent.  If a call on `e` returns type `t` and leaves
the expression in state `e'`, then `e'` has `t` cached and any further call
returns exactly `some (t, e')` without modifying anything. -/
theorem typ_idempotent (e e' : Expr) (t : Ty) (h : e.typ = some (t, e')) :
    e'.typ = some (t, e') ∧ e'.cache = some t := by
  cases e with
  | mk inner cache =>
    cases cache with
    | some t0 =>
      simp only [Expr.typ] at h
      obtain ⟨rfl, rfl⟩ := Prod.mk.injEq .. ▸ Option.some.inj h
      exact ⟨rfl, rfl⟩
    | none =>
      simp only [Expr.typ] at h
      cases hg : IExpr.get_type inner with
      | none => rw [hg] at h; exact absurd h (by simp)
      | some p =>
        obtain ⟨t', inner'⟩ := p
        rw [hg] at h
        obtain ⟨rfl, rfl⟩ := Prod.mk.injEq .. ▸ Option.some.inj h
        exact ⟨rfl, rfl⟩

/-- Witness for C6: a freshly built `Constant(Int 5)` node caches `I64` on
the first `typ()` call and the second call is the identity. -/
theorem typ_idempotent_witness :
    (Expr.mk (.Constant (.int 5)) none).typ
        = some (Ty.I64, Expr.mk (.Constant (.int 5)) (some Ty.I64)) ∧
    (Expr.mk (.Constant (.int 5)) (some Ty.I64)).typ
        = some (Ty.I64, Expr.mk (.Constant (.int 5)) (some Ty.I64)) ∧
    (Expr.mk (.Constant (.int 5)) (some Ty.I64)).cache = some Ty.I64 :=
  ⟨rfl,
   (typ_idempotent (Expr.mk (.Constant (.int 5)) none)
     (Expr.mk (.Constant (.int 5)) (some Ty.I64)) Ty.I64 rfl).1,
   (typ_idempotent (Expr.mk (.Constant (.int 5)) none)
     (Expr.mk (.Constant (.int 5)) (some Ty.I64)) Ty.I64 rfl).2⟩

end Yacuri

namespace Yacuri

/-- C3 counterexample: an `if`/`else` whose two branches are both the empty
block (type `Void`) gets `phi = true` from `Expr::if_`, not `false` as the
claim requires for Void branches. -/
theorem if_phi_void_counterexample :
    (Expr.if_ (Expr.constant (.bool true)) (Expr.block .nil)
        (some (Expr.block .nil))).bind (fun e => e.phi_flag) = some true ∧
    (Expr.block ExprList.nil).typ
        = some (Ty.Void, Expr.mk (.Block .nil) (some Ty.Void)) :=
  ⟨rfl, rfl⟩

/-- C3 amended: for an `if` built by `Expr::if_`, the `phi` flag is true iff
the `else` branch exists and both branches' `typ()` calls succeed with equal
types — with no exclusion of `Void`. -/
theorem if_phi_iff (cond then_ : Expr) (els : Option Expr) (r : Expr)
    (h : Expr.if_ cond then_ els = some r) :
    r.phi_flag = some true ↔
      ∃ e tt then' e', els = some e ∧ then_.typ = some (tt, then') ∧
        e.typ = some (tt, e') := by
  cases els with
  | none =>
    simp only [Expr.if_] at h
    obtain rfl := Option.some.inj h
    simp [Expr.phi_flag, Expr.new, Expr.inner]
  | some e =>
    simp only [Expr.if_] at h
    cases ht : then_.typ with
    | none => rw [ht] at h; exact absurd h (by simp)
    | some pt =>
      obtain ⟨tt, then'⟩ := pt
      rw [ht] at h
      cases he : e.typ with
      | none => rw [he] at h; exact absurd h (by simp)
      | some pe =>
        obtain ⟨te, e'⟩ := pe
        rw [he] at h
        obtain rfl := Option.some.inj h
        simp only [Expr.phi_flag, Expr.new, Expr.inner, Option.some.injEq,
          decide_eq_true_eq]
        constructor
        · intro hte
          exact ⟨e, tt, then', e', rfl, rfl, by rw [he, hte]⟩
        · rintro ⟨e2, tt2, then2, e2', he2, hth2, hety⟩
          clear h
          simp_all

/-- Witness for C3 at two `I64` branches: the built node has `phi = true`. -/
theorem if_phi_iff_witness :
    (Expr.new (.If (Expr.constant (.bool true))
        (Expr.mk (.Constant (.int 1)) (some Ty.I64))
        (Expr.mk (.Constant (.int 2)) (some Ty.I64)) true)).phi_flag
      = some true :=
  (if_phi_iff (Expr.constant (.bool true)) (Expr.constant (.int 1))
      (some (Expr.constant (.int 2))) _ rfl).mpr
    ⟨Expr.constant (.int 2), Ty.I64, Expr.mk (.Constant (.int 1)) (some Ty.I64),
     Expr.mk (.Constant (.int 2)) (some Ty.I64), rfl, rfl, rfl⟩

/-- C4 amended: when the parser advances past the last lexer token, the
fabricated end-of-input `Error` token has `start` equal to the old current
token's `start + 1` (and lexeme `"\x00"`) — not the source length. -/
theorem advance_eof_synthetic_start (p : Parser) (h : p.rest = []) :
    ((p.advance).2).current
      = { kind := TKind.Error, lex := "\x00", start := p.current.start + 1 } := by
  simp [Parser.advance, h]

/-- C4 counterexample: for the source `"fun"`, the synthetic end-of-input
token fabricated after consuming the only token has `start = 1`, while the
source length is `3`. -/
theorem eof_start_not_source_length :
    (Parser.new "fun").map
        (fun p => (((p.advance).2).current.start, ((p.advance).2).current.kind))
      = some (1, TKind.Error) ∧
    "fun".length = 3 ∧ (1 : Nat) ≠ 3 :=
  ⟨by decide, by decide, by decide⟩

/-- Witness for C4's amended statement on the parser state reached from the
source `"fun"`. -/
theorem advance_eof_synthetic_start_witness :
    ((Parser.mk [] { kind := TKind.Fun, lex := "fun", start := 0 } []).advance).2.current
      = { kind := TKind.Error, lex := "\x00", start := 1 } :=
  advance_eof_synthetic_start (Parser.mk [] { kind := TKind.Fun, lex := "fun", start := 0 } []) rfl

end Yacuri

namespace Yacuri

/-- C9: whenever the lexer yields no tokens (empty source, or whitespace and
comments only), `Parser::new` panics on the `unwrap` of the first token, and
`execute_module` on that source panics instead of returning anything. -/
theorem empty_stream_parser_new_panics (src : String) (h : lex src = []) :
    Parser.new src = none ∧ execute_module_front src = FrontOutcome.panicked := by
  constructor
  · simp [Parser.new, h]
  · simp [execute_module_front, Parser.new, h]

/-- Witness for C9 at the empty source and a whitespace-and-comment source. -/
theorem empty_stream_parser_new_panics_witness :
    (Parser.new "" = none ∧ execute_module_front "" = FrontOutcome.panicked) ∧
    (Parser.new " // hi" = none ∧
      execute_module_front " // hi" = FrontOutcome.panicked) :=
  ⟨empty_stream_parser_new_panics "" rfl,
   empty_stream_parser_new_panics " // hi" rfl⟩

/-- C1 (evaluated at the failing input): compiling
`fun main() -> i64 { 5 + true }` produces no diagnostics — `ExprCompiler::err`
drops the E500 — so `execute_module` proceeds to invoke the JIT instead of
returning an error list. -/
theorem e500_dropped_jit_still_invoked :
    (execute_module_front "fun main() -> i64 { 5 + true }").is_jit = true := rfl

/-- C2 (evaluated at the failing input): a module with two top-level
functions named `foo` makes `stage_1` panic on the `unwrap` of the E201
`Err` from `try_reserve_name`, rather than returning an error list. -/
theorem duplicate_name_compilation_panics :
    execute_module_front "fun foo() { 0 } fun foo() { 0 }" = FrontOutcome.panicked := rfl

/-- Indexing facts about the linear search `position`: a hit is in range,
satisfies the predicate and is the first such index. -/
theorem position_spec_some {α : Type} (p : α → Bool) (l : List α) (i : Nat)
    (h : position p l = some i) :
    ∃ a, l[i]? = some a ∧ p a = true ∧
      ∀ j, j < i → ∀ b, l[j]? = some b → p b = false := by
  induction l generalizing i with
  | nil => simp [position] at h
  | cons x xs ih =>
    by_cases hx : p x
    · simp only [position, hx, if_pos] at h
      obtain rfl := Option.some.inj h
      exact ⟨x, by simp, hx, fun j hj => absurd hj (by omega)⟩
    · simp only [position, hx, Bool.false_eq_true, if_neg, if_false] at h
      obtain ⟨i', hi', rfl⟩ := Option.map_eq_some'.mp h
      obtain ⟨a, ha, hpa, hmin⟩ := ih i' hi'
      refine ⟨a, by simpa using ha, hpa, ?_⟩
      intro j hj b hb
      cases j with
      | zero =>
        simp only [List.getElem?_cons_zero] at hb
        obtain rfl := Option.some.inj hb
        simpa using hx
      | succ j' =>
        refine hmin j' (by omega) b ?_
        simpa using hb

/-- A miss of the linear search `position` means no element satisfies the
predicate. -/
theorem position_spec_none {α : Type} (p : α → Bool) (l : List α)
    (h : position p l = none) : ∀ a ∈ l, p a = false := by
  induction l with
  | nil => intro a ha; simp at ha
  | cons x xs ih =>
    intro a ha
    by_cases hx : p x
    · simp [position, hx] at h
    · simp only [position, hx, Bool.false_eq_true, if_neg, if_false,
        Option.map_eq_none'] at h
      rcases List.mem_cons.mp ha with rfl | hmem
      · simpa using hx
      · exact ih h a hmem

/-- C7: `resolve_ty_name` maps `bool`/`i64`/`f64` to the primitive IR types;
any other name resolves to a `ClassRef` at the first class with that name in
linear search order, and produces `E200` exactly when no class of that name
exists. -/
theorem resolve_ty_name_spec (mc : ModuleCompiler) (name : String) (pos : Nat) :
    (name = "bool" → mc.resolve_ty_name name pos = .ok Ty.Bool) ∧
    (name = "i64" → mc.resolve_ty_name name pos = .ok Ty.I64) ∧
    (name = "f64" → mc.resolve_ty_name name pos = .ok Ty.F64) ∧
    (name ≠ "bool" → name ≠ "i64" → name ≠ "f64" →
      ((∃ i cls, mc.module.classes[i]? = some cls ∧ cls.name = name ∧
          (∀ j, j < i → ∀ cls', mc.module.classes[j]? = some cls' →
            cls'.name ≠ name) ∧
          mc.resolve_ty_name name pos
            = .ok (Ty.Class { module := mc.module_id, index := i })) ∨
       ((∀ cls ∈ mc.module.classes, cls.name ≠ name) ∧
        mc.resolve_ty_name name pos = .error (Error.new pos (.e200 name))))) := by
  refine ⟨?_, ?_, ?_, ?_⟩
  · intro h; subst h; rfl
  · intro h; subst h; rfl
  · intro h; subst h; rfl
  · intro h1 h2 h3
    unfold ModuleCompiler.resolve_ty_name
    rw [if_neg h1, if_neg h2, if_neg h3]
    cases hp : position (fun cls => cls.name = name) mc.module.classes with
    | some i =>
      left
      obtain ⟨cls, hget, hpa, hmin⟩ := position_spec_some _ _ _ hp
      refine ⟨i, cls, hget, by simpa using hpa, ?_, rfl⟩
      intro j hj cls' hget'
      have := hmin j hj cls' hget'
      simpa using this
    | none =>
      right
      refine ⟨?_, rfl⟩
      intro cls hm
      have := position_spec_none _ _ hp cls hm
      simpa using this

/-- Witness for C7: a primitive name and a class lookup on a module with one
class `Foo`. -/
theorem resolve_ty_name_spec_witness :
    resolver_witness_mc.resolve_ty_name "bool" 3 = .ok Ty.Bool ∧
    resolver_witness_mc.resolve_ty_name "Foo" 7
      = .ok (Ty.Class { module := 0, index := 0 }) ∧
    resolver_witness_mc.resolve_ty_name "Bar" 9
      = .error (Error.new 9 (.e200 "Bar")) := by
  refine ⟨(resolve_ty_name_spec resolver_witness_mc "bool" 3).1 rfl, ?_, ?_⟩
  · rcases (resolve_ty_name_spec resolver_witness_mc "Foo" 7).2.2.2
      (by decide) (by decide) (by decide) with
      ⟨i, cls, hget, _, _, hres⟩ | ⟨hall, _⟩
    · have h0 : resolver_witness_mc.module.classes[i]? = some cls := hget
      cases i with
      | zero => exact hres
      | succ n =>
        exfalso
        have : resolver_witness_mc.module.classes[n + 1]? = none := by
          simp [resolver_witness_mc]
        rw [this] at h0
        exact absurd h0 (by simp)
    · exfalso
      refine hall
        { name := "Foo", content := [],
          ast := { name := { kind := .Identifier, lex := "Foo", start := 6 },
                   members := [], methods := [], functions := [] } } ?_ rfl
      simp [resolver_witness_mc]
  · rcases (resolve_ty_name_spec resolver_witness_mc "Bar" 9).2.2.2
      (by decide) (by decide) (by decide) with
      ⟨i, cls, hget, hname, _, _⟩ | ⟨_, hres⟩
    · exfalso
      cases i with
      | zero =>
        have : cls.name = "Foo" := by
          have h0 : resolver_witness_mc.module.classes[0]? = some cls := hget
          simp [resolver_witness_mc] at h0
          rw [← h0]
        rw [this] at hname
        exact absurd hname (by decide)
      | succ n =>
        have : resolver_witness_mc.module.classes[n + 1]? = none := by
          simp [resolver_witness_mc]
        rw [this] at hget
        exact absurd hget (by simp)
    · exact hres

/-- C10: JIT translation of a `Block` with zero children panics: the child
loop leaves the accumulated value `None` and unwraps it, although the IR
assigns the empty block the type `Void`. -/
theorem empty_block_trans_panics (fuel : Nat) (m : IRModule) (st : TransState) :
    FnTranslator.trans_expr (fuel + 1) m st (Expr.block .nil)
        = .error .panicked ∧
    (Expr.block ExprList.nil).typ
        = some (Ty.Void, Expr.mk (.Block .nil) (some Ty.Void)) := by
  constructor
  · simp [FnTranslator.trans_expr, FnTranslator.trans_block, Expr.block, Expr.new,
      Expr.inner]
  · rfl

end Yacuri
